import Mathlib

/-!
Shallow embedding of LUrlParser (src/LUrlParser.cpp) and proofs about it.

Strings from the C++ side are modelled as `List Char` (byte strings; every
concrete input used below is ASCII).  Fallible C++ code is modelled with
`Option`/`Except`; paths on which the C++ code has undefined behaviour or
lets an exception escape `parseURL` (the `throw` in `urlDecode` and the
`std::string` constructor receiving a huge length after null-pointer
arithmetic on line 99) are modelled by a distinguished `crash` outcome,
since they return no record at all.
-/

set_option maxRecDepth 16384

namespace LUrlParser

/-- C-locale `isalpha` on ASCII bytes (LUrlParser.cpp line 42). -/
def isalphaC (c : Char) : Bool :=
  ('A' ≤ c && c ≤ 'Z') || ('a' ≤ c && c ≤ 'z')

/-- C-locale `::tolower` on ASCII bytes (LUrlParser.cpp line 114). -/
def tolowerC (c : Char) : Char :=
  if 'A' ≤ c && c ≤ 'Z' then Char.ofNat (c.toNat + 32) else c

/-- C-locale `isspace` (used by `std::stoi`'s underlying `strtol`). -/
def isspaceC (c : Char) : Bool :=
  c == ' ' || c == '\t' || c == '\n' || c == '\x0b' || c == '\x0c' || c == '\r'

/-- ASCII decimal digit test. -/
def isdigitC (c : Char) : Bool := '0' ≤ c && c ≤ '9'

/-- ASCII hexadecimal digit test. -/
def isHexDigitC (c : Char) : Bool :=
  isdigitC c || ('a' ≤ c && c ≤ 'f') || ('A' ≤ c && c ≤ 'F')

/-- Numeric value of a hexadecimal digit. -/
def hexVal (c : Char) : Int :=
  if isdigitC c then (c.toNat : Int) - 48
  else if 'a' ≤ c && c ≤ 'f' then (c.toNat : Int) - 87
  else (c.toNat : Int) - 55

/-- `std::stoi(s, nullptr, 16)` applied to the exactly-two-character string
`c1 c2` taken by `value.substr(i + 1, 2)` on line 56.  Per `strtol`: skip
leading whitespace, accept one optional sign, then parse a maximal run of
hexadecimal digits; `none` models the `std::invalid_argument` exception
thrown when no digits can be parsed.  (A `0x` prefix needs a digit after the
`x` to make a difference, which cannot happen in a two-character string.) -/
def stoi16two (c1 c2 : Char) : Option Int :=
  if isspaceC c1 then (if isHexDigitC c2 then some (hexVal c2) else none)
  else if c1 == '+' then (if isHexDigitC c2 then some (hexVal c2) else none)
  else if c1 == '-' then (if isHexDigitC c2 then some (-(hexVal c2)) else none)
  else if isHexDigitC c1 then
    (if isHexDigitC c2 then some (16 * hexVal c1 + hexVal c2) else some (hexVal c1))
  else none

/-- `urlDecode` (LUrlParser.cpp lines 48-68).  The C++ loop walks an index
`i`; at `value[i] == '%'` it throws when `i + 2 >= value.length()` — i.e.
when fewer than two characters follow the `%` — and otherwise feeds the two
following characters to `std::stoi(·, nullptr, 16)`, appends the result cast
to `char` (a byte, modelled as the value modulo 256) and skips past both
characters.  `+` becomes a space; every other character is copied.  `none`
models an escaping exception (either throw site). -/
def urlDecode : List Char → Option (List Char)
  | [] => some []
  | c :: rest =>
    if c == '%' then
      match rest with
      | c1 :: c2 :: rest2 =>
        match stoi16two c1 c2 with
        | some v => (urlDecode rest2).map (fun d => Char.ofNat ((v % 256).toNat) :: d)
        | none => none
      | _ => none
    else if c == '+' then (urlDecode rest).map (fun d => ' ' :: d)
    else (urlDecode rest).map (fun d => c :: d)

/-- Value of the maximal leading run of decimal digits. -/
def digitsVal (l : List Char) : Int :=
  (l.takeWhile isdigitC).foldl (fun a c => 10 * a + ((c.toNat : Int) - 48)) 0

/-- The mathematical `strtol`-style base-10 parse: skip whitespace, one
optional sign, then a maximal run of decimal digits (an empty run yields 0),
as an unbounded integer.  This is the idealised "base-10 integer parsing"
the spec speaks about; `atoi` below narrows it the way the program does. -/
def atoiMath (l : List Char) : Int :=
  match l.dropWhile isspaceC with
  | '+' :: r => digitsVal r
  | '-' :: r => - digitsVal r
  | r => digitsVal r

/-- `long`-to-`int` narrowing on the reference platform (GCC x86-64):
wraps modulo `2^32` into `[-2^31, 2^31)`. -/
def wrap32 (v : Int) : Int := (v + 2 ^ 31) % 2 ^ 32 - 2 ^ 31

/-- `strtol` clamps an out-of-range value to `LONG_MIN`/`LONG_MAX`. -/
def clampLong (v : Int) : Int := max (-(2 ^ 63)) (min v (2 ^ 63 - 1))

/-- `atoi` (LUrlParser.cpp line 75).  glibc `atoi` is
`(int) strtol(s, NULL, 10)`: the mathematical parse, clamped by `strtol` to
the `long` range, then narrowed to `int` — on the reference platform the
narrowing wraps modulo `2^32` (implementation-defined), so e.g.
`"4294967396"` yields `100`. -/
def atoi (l : List Char) : Int := wrap32 (clampLong (atoiMath l))

/-- Modelled from the spec: the error enumeration lives in the header
`LUrlParser/LUrlParser.h`, which is not part of the sources here.  §4.1 of
the spec lists the five structural error conditions plus `Ok`;
`Uninitialized` is the default state of a freshly constructed record before
the scan finishes. -/
inductive LUrlParserError where
  | Ok
  | Uninitialized
  | NoUrlCharacter
  | InvalidSchemeName
  | NoDoubleSlash
  | NoAtSign
  | NoSlash
deriving DecidableEq, Repr

/-- The result record (fields of `LUrlParser::ParseURL`, with `url_parameters_`
-- a `std::map<std::string, std::string>` — modelled as an association list
with unique keys updated in place). -/
structure ParseURL where
  scheme_ : List Char := []
  userName_ : List Char := []
  password_ : List Char := []
  host_ : List Char := []
  port_ : List Char := []
  path_ : List Char := []
  query_ : List Char := []
  url_parameters_ : List (List Char × List Char) := []
  fragment_ : List Char := []
  errorCode_ : LUrlParserError := .Uninitialized
deriving DecidableEq, Repr

/-- Modelled from the spec: `isValid()` is declared in the missing header;
per §4.1/§6 of the spec it holds exactly when `errorCode == Ok`. -/
def isValid (r : ParseURL) : Bool := decide (r.errorCode_ = .Ok)

/-- Modelled from the spec: `new ParseURL(error)` (the error constructor in
the missing header) builds a record carrying the given error code with every
structural field empty — per §4.1/§7 no partial result survives an error. -/
def errRecord (e : LUrlParserError) : ParseURL := { errorCode_ := e }

/-- `ParseURL::getPort` (LUrlParser.cpp lines 72-82): fails unless the record
is valid; converts the raw port string with `atoi`; fails when the value is
`<= 0` or `> 65535`. -/
def getPort (r : ParseURL) : Option Int :=
  if !(isValid r) then none
  else if atoi r.port_ ≤ 0 ∨ 65535 < atoi r.port_ then none
  else some (atoi r.port_)

/-- Index of the first occurrence of `c` (the offset `strchr` reports). -/
def strchrIdx (c : Char) : List Char → Option Nat
  | [] => none
  | x :: xs => if x = c then some 0 else (strchrIdx c xs).map (· + 1)

/-- Outcome of the scheme-boundary computation of LUrlParser.cpp lines 99-107. -/
inductive SplitRes where
  | ok (cand rest : List Char)
  | crash
deriving DecidableEq, Repr

/-- Scheme boundary (LUrlParser.cpp lines 99-107 and 117):
`localString = (!strchr(s, ':')) ? (strchr(s, '/') - 1) : strchr(s, ':')`.
With `':'` at index `i` the candidate is the prefix of length `i`, and the
scan resumes right after the `':'`.  With no `':'` but `'/'` at index `j`,
`localString` points at `j - 1`, so the candidate is the prefix of length
`j - 1` and the scan resumes at the `'/'` itself; when `j = 0` the length
`localString - currentString` is `-1`, so `std::string(currentString,
(size_t)-1)` is called with a huge length — a crash.  With neither
character, `strchr(s, '/') - 1` is `NULL - 1`, a non-null garbage pointer:
the `if (!localString)` guard (whose body would return `NoUrlCharacter`)
never fires, and the same huge-length construction crashes. -/
def schemeSplit (cs : List Char) : SplitRes :=
  match strchrIdx ':' cs with
  | some i => .ok (cs.take i) (cs.drop (i + 1))
  | none =>
    match strchrIdx '/' cs with
    | some j => if j = 0 then .crash else .ok (cs.take (j - 1)) (cs.drop j)
    | none => .crash

/-- `isSchemeValid` (LUrlParser.cpp lines 40-46): every character must be a
letter or `+`, `-`, `.`. -/
def isSchemeValid (schemeName : List Char) : Bool :=
  schemeName.all (fun c => isalphaC c || c == '+' || c == '-' || c == '.')

/-- Outcome of the whole scheme step (boundary, validation, lower-casing). -/
inductive SchemeRes where
  | ok (scheme rest : List Char)
  | err (e : LUrlParserError)
  | crash
deriving DecidableEq, Repr

/-- Scheme step (LUrlParser.cpp lines 97-118): compute the boundary, check
the candidate with `isSchemeValid` (failing with `InvalidSchemeName`),
lower-case it, and continue after the boundary. -/
def schemeStep (cs : List Char) : SchemeRes :=
  match schemeSplit cs with
  | .crash => .crash
  | .ok cand rest =>
    if isSchemeValid cand then .ok (cand.map tolowerC) rest
    else .err .InvalidSchemeName

/-- The `//` check (LUrlParser.cpp lines 126-127). -/
def doubleSlashStep : List Char → Option (List Char)
  | '/' :: '/' :: rest => some rest
  | _ => none

/-- Credentials lookahead (LUrlParser.cpp lines 130-146): scan forward until
`@` (credentials present) or `/` (absent) or the end of the string. -/
def bHasUserName : List Char → Bool
  | [] => false
  | c :: cs => if c = '@' then true else if c = '/' then false else bHasUserName cs

/-- Loop guard of the user-name scan (line 153). -/
def notColonAt (c : Char) : Bool := !(c == ':') && !(c == '@')

/-- Loop guard of the password scan (line 167). -/
def notAt (c : Char) : Bool := !(c == '@')

/-- Credentials step (LUrlParser.cpp lines 148-181): when the lookahead saw
an `@`, read the user name up to `:` or `@`; on `:`, skip it and read the
password up to `@`; then the current character must be `@` (else
`NoAtSign`), which is skipped. -/
def credentialsStep (cs : List Char) :
    Except LUrlParserError (List Char × List Char × List Char) :=
  if bHasUserName cs then
    match cs.dropWhile notColonAt with
    | ':' :: r2 =>
      match r2.dropWhile notAt with
      | '@' :: r4 => .ok (cs.takeWhile notColonAt, r2.takeWhile notAt, r4)
      | _ => .error .NoAtSign
    | '@' :: r4 => .ok (cs.takeWhile notColonAt, [], r4)
    | _ => .error .NoAtSign
  else .ok ([], [], cs)

/-- Loop guard of the bracketed host scan (line 189). -/
def notRBracket (c : Char) : Bool := !(c == ']')

/-- Loop guard of the plain host scan (line 193). -/
def notColonSlash (c : Char) : Bool := !(c == ':') && !(c == '/')

/-- Host scan (LUrlParser.cpp lines 183-203): with a leading `[` the scan
runs up to and including the first `]` (and to the end of the string when
there is none); otherwise it stops at `:` or `/` or the end. -/
def hostScan (cs : List Char) : List Char × List Char :=
  if cs.head? = some '[' then
    match cs.dropWhile notRBracket with
    | ']' :: rest => (cs.takeWhile notRBracket ++ [']'], rest)
    | _ => (cs, [])
  else (cs.takeWhile notColonSlash, cs.dropWhile notColonSlash)

/-- Loop guard of the port scan (line 212). -/
def notSlash (c : Char) : Bool := !(c == '/')

/-- Port step (LUrlParser.cpp lines 206-217): a leading `:` is skipped and
the raw port string runs up to `/` or the end. -/
def portStep : List Char → List Char × List Char
  | ':' :: r => (r.takeWhile notSlash, r.dropWhile notSlash)
  | cs => ([], cs)

/-- Loop guard of the path scan (line 236). -/
def notHashQ (c : Char) : Bool := !(c == '#') && !(c == '?')

/-- Loop guard of the query scan (line 250). -/
def notHash (c : Char) : Bool := !(c == '#')

/-- The `std::getline(ss, key_value, '&')` loop (line 258): split on `&`,
where a trailing `&` produces no extra empty segment (after it is consumed
the stream is at end-of-file and the next `getline` fails) and an empty
string produces no segment at all. -/
def splitAmpAux : List Char → List Char → List (List Char)
  | [], acc => [acc.reverse]
  | '&' :: [], acc => [acc.reverse]
  | '&' :: c :: cs, acc => acc.reverse :: splitAmpAux (c :: cs) []
  | c :: cs, acc => splitAmpAux cs (c :: acc)

/-- Split a query string on `&` with `std::getline` semantics. -/
def splitAmp (l : List Char) : List (List Char) :=
  match l with
  | [] => []
  | _ => splitAmpAux l []

/-- Loop guard of the key scan (`getline(ss2, key, '=')`, line 260). -/
def notEqSign (c : Char) : Bool := !(c == '=')

/-- `std::getline(ss2, key, '=')` (line 260): the key is everything up to
the first `=` of the pair. -/
def keyOf (kv : List Char) : List Char := kv.takeWhile notEqSign

/-- `std::getline(ss2, value, '&')` (line 261): when the pair contains an
`=`, `value` is erased and refilled with everything after the first `=`.
When it does not (also when the pair is empty), the key read already hit
end-of-file and set `eofbit` on `ss2`, so this `getline`'s sentry fails and
`value` is NOT erased (`basic_string.tcc` erases only inside
`if (__cerb)`): `value` — declared outside the loop on line 256 — keeps
the previous iteration's raw content (initially the empty string). -/
def valueOf (value kv : List Char) : List Char :=
  match kv.dropWhile notEqSign with
  | _ :: r => r
  | [] => value

/-- `url_parameters_[key] = v` on a `std::map`: replace the value of an
existing key, otherwise add the binding. -/
def insertParam : List (List Char × List Char) → List Char → List Char →
    List (List Char × List Char)
  | [], k, v => [(k, v)]
  | p :: m, k, v => if p.1 = k then (k, v) :: m else p :: insertParam m k v

/-- `std::map` lookup. -/
def lookupParam : List (List Char × List Char) → List Char → Option (List Char)
  | [], _ => none
  | p :: m, k => if p.1 = k then some p.2 else lookupParam m k

/-- One iteration of the pair loop (lines 258-264).  The state is the pair
of the loop-carried `value` variable and the map built so far: split the
pair into key and (possibly stale) value, decode the value (`none` when
`urlDecode` throws, aborting the loop and the whole parse), and store it. -/
def stepPair (st : List Char × List (List Char × List Char)) (kv : List Char) :
    Option (List Char × List (List Char × List Char)) :=
  match urlDecode (valueOf st.1 kv) with
  | some v => some (valueOf st.1 kv, insertParam st.2 (keyOf kv) v)
  | none => none

/-- The whole pair loop over a raw query string; `value` starts empty. -/
def processQuery (q : List Char) : Option (List (List Char × List Char)) :=
  ((splitAmp q).foldlM stepPair ([], [])).map (·.2)

/-- Outcome of `parseURL`: a success record, an error record (the fresh
`new ParseURL(error)` object), or a crash (escaping exception / undefined
behaviour — no record is returned at all). -/
inductive ParseOutcome where
  | ok (r : ParseURL)
  | err (r : ParseURL)
  | crash
deriving DecidableEq, Repr

/-- Query step (LUrlParser.cpp lines 243-267): on a leading `?` the raw
query runs up to `#` or the end and the pair loop fills the parameter map;
otherwise nothing happens. -/
def queryStep (cs : List Char) :
    Option (List Char × List (List Char × List Char) × List Char) :=
  match cs with
  | '?' :: r =>
    match processQuery (r.takeWhile notHash) with
    | some m => some (r.takeWhile notHash, m, r.dropWhile notHash)
    | none => none
  | _ => some ([], [], cs)

/-- Fragment step (LUrlParser.cpp lines 270-282): on a leading `#` the rest
of the string is the fragment. -/
def fragStep : List Char → List Char
  | '#' :: r => r
  | _ => []

/-- `ParseURL::parseURL` (LUrlParser.cpp lines 85-287): the full scan in
grammar order — scheme, `//`, credentials, host, port, then either
end-of-string success, or `/` (else `NoSlash`), path, query, fragment. -/
def parseURL (cs : List Char) : ParseOutcome :=
  match schemeStep cs with
  | .crash => .crash
  | .err e => .err (errRecord e)
  | .ok sch rest =>
    match doubleSlashStep rest with
    | none => .err (errRecord .NoDoubleSlash)
    | some r2 =>
      match credentialsStep r2 with
      | .error e => .err (errRecord e)
      | .ok (u, pw, r3) =>
        match hostScan r3 with
        | (h, r4) =>
          match portStep r4 with
          | (pt, r5) =>
            match r5 with
            | [] =>
              .ok { scheme_ := sch, userName_ := u, password_ := pw, host_ := h,
                    port_ := pt, errorCode_ := .Ok }
            | '/' :: r6 =>
              match queryStep (r6.dropWhile notHashQ) with
              | none => .crash
              | some (q, m, r8) =>
                .ok { scheme_ := sch, userName_ := u, password_ := pw, host_ := h,
                      port_ := pt, path_ := r6.takeWhile notHashQ, query_ := q,
                      url_parameters_ := m, fragment_ := fragStep r8,
                      errorCode_ := .Ok }
            | _ => .err (errRecord .NoSlash)

/-! ### Helper lemmas about the scanning primitives -/

theorem strchrIdx_eq_none {c : Char} {l : List Char} (h : c ∉ l) :
    strchrIdx c l = none := by
  induction l with
  | nil => rfl
  | cons x xs ih =>
    simp only [List.mem_cons, not_or] at h
    have hx : ¬ x = c := fun hh => h.1 hh.symm
    simp only [strchrIdx, if_neg hx, ih h.2, Option.map_none']

theorem strchrIdx_lt {c : Char} {l : List Char} {i : Nat}
    (h : strchrIdx c l = some i) : i < l.length := by
  induction l generalizing i with
  | nil => simp [strchrIdx] at h
  | cons x xs ih =>
    simp only [strchrIdx] at h
    split at h
    · cases h; simp
    · cases hx : strchrIdx c xs with
      | none => rw [hx] at h; simp at h
      | some j =>
        rw [hx] at h
        simp only [Option.map_some'] at h
        cases h
        simpa using Nat.succ_lt_succ (ih hx)

theorem strchrIdx_getElem {c : Char} {l : List Char} {i : Nat}
    (h : strchrIdx c l = some i) : ∃ hi : i < l.length, l[i] = c := by
  induction l generalizing i with
  | nil => simp [strchrIdx] at h
  | cons x xs ih =>
    simp only [strchrIdx] at h
    split at h
    · cases h
      exact ⟨by simp, by simpa using ‹x = c›⟩
    · cases hx : strchrIdx c xs with
      | none => rw [hx] at h; simp at h
      | some j =>
        rw [hx] at h
        simp only [Option.map_some'] at h
        cases h
        obtain ⟨hj, hget⟩ := ih hx
        exact ⟨by simpa using Nat.succ_lt_succ hj, by simpa using hget⟩

theorem strchrIdx_take_drop {c : Char} {l : List Char} {i : Nat}
    (h : strchrIdx c l = some i) :
    l.takeWhile (fun x => !(x == c)) = l.take i ∧
      l.dropWhile (fun x => !(x == c)) = l.drop i := by
  induction l generalizing i with
  | nil => simp [strchrIdx] at h
  | cons x xs ih =>
    simp only [strchrIdx] at h
    split at h
    · cases h
      subst ‹x = c›
      constructor
      · simp [List.takeWhile_cons]
      · simp [List.dropWhile_cons]
    · cases hx : strchrIdx c xs with
      | none => rw [hx] at h; simp at h
      | some j =>
        rw [hx] at h
        simp only [Option.map_some'] at h
        cases h
        have hxc : (x == c) = false := by
          simpa using ‹¬ x = c›
        obtain ⟨ht, hd⟩ := ih hx
        constructor
        · simpa [List.takeWhile_cons, hxc] using ht
        · simpa [List.dropWhile_cons, hxc] using hd

theorem dropWhile_head_false {p : Char → Bool} {l : List Char} {x : Char}
    {xs : List Char} (h : l.dropWhile p = x :: xs) : p x = false := by
  induction l with
  | nil => simp at h
  | cons y ys ih =>
    rw [List.dropWhile_cons] at h
    by_cases hp : p y = true
    · rw [if_pos hp] at h
      exact ih h
    · rw [if_neg hp] at h
      cases h
      simpa using hp

/-! ### C2 — no `:` and no `/`: the scan crashes instead of `NoUrlCharacter` -/

/-- C2: for every input containing neither `:` nor `/`, the code does not
return `NoUrlCharacter` (as the spec and the dead `if (!localString)` guard
intend): `strchr(URL, '/') - 1` is `NULL - 1`, a non-null garbage pointer,
so the guard is skipped and `std::string(currentString, localString -
currentString)` is invoked with a huge length — the parse crashes. -/
theorem parseURL_no_colon_no_slash_crash (cs : List Char)
    (hc : ':' ∉ cs) (hs : '/' ∉ cs) : parseURL cs = ParseOutcome.crash := by
  unfold parseURL schemeStep schemeSplit
  rw [strchrIdx_eq_none hc, strchrIdx_eq_none hs]

/-- Witness for C2 at the concrete input `"abc"`. -/
theorem parseURL_no_colon_no_slash_crash_witness :
    parseURL "abc".data = ParseOutcome.crash :=
  parseURL_no_colon_no_slash_crash "abc".data (by decide) (by decide)

/-! ### C6 — scheme boundary with no `:` but a `/` -/

/-- C6 counterexample: `"/abc"` contains no `:` and contains a `/` (at
index 0), but no scheme candidate is formed and scanning never resumes: the
boundary pointer is `strchr - 1` = one before the string, the computed
length is `(size_t)(-1)`, and the parse crashes. -/
theorem schemeSplit_leading_slash_counterexample :
    (':' ∉ "/abc".data ∧ '/' ∈ "/abc".data) ∧
      schemeSplit "/abc".data = SplitRes.crash ∧
      parseURL "/abc".data = ParseOutcome.crash := by
  refine ⟨by decide, by decide, by decide⟩

/-- C6 amended: for every input with no `:` whose first `/` sits at a
positive index `j`, the scheme candidate is the prefix of length `j - 1`
(ending just before the position one before the `/`) and scanning resumes
at the `/` itself; when the `/` is the very first character the parse
crashes instead (see the counterexample). -/
theorem schemeSplit_no_colon_slash (cs : List Char) (j : Nat)
    (hc : ':' ∉ cs) (hj : strchrIdx '/' cs = some j) (hpos : 0 < j) :
    schemeSplit cs = SplitRes.ok (cs.take (j - 1)) (cs.drop j) := by
  unfold schemeSplit
  rw [strchrIdx_eq_none hc, hj]
  simp [Nat.pos_iff_ne_zero.mp hpos]

/-- Witness for C6 at `"ab/cd"`: candidate `"a"`, resume at the `/`. -/
theorem schemeSplit_no_colon_slash_witness :
    schemeSplit "ab/cd".data = SplitRes.ok "a".data "/cd".data :=
  schemeSplit_no_colon_slash "ab/cd".data 2 (by decide) (by decide) (by decide)

/-! ### C5 — the percent-decoder -/

/-- A hexadecimal digit is not whitespace and not a sign, so `stoi16two`
reaches its digit branches on hexadecimal input. -/
theorem isHexDigitC_not_space_sign {c : Char} (h : isHexDigitC c = true) :
    isspaceC c = false ∧ (c == '+') = false ∧ (c == '-') = false := by
  refine ⟨?_, ?_, ?_⟩
  · by_contra hs
    rw [Bool.not_eq_false] at hs
    simp only [isspaceC, Bool.or_eq_true, beq_iff_eq] at hs
    rcases hs with ((((h1 | h1) | h1) | h1) | h1) | h1 <;>
      (subst h1; exact absurd h (by decide))
  · by_contra hs
    rw [Bool.not_eq_false, beq_iff_eq] at hs
    subst hs
    exact absurd h (by decide)
  · by_contra hs
    rw [Bool.not_eq_false, beq_iff_eq] at hs
    subst hs
    exact absurd h (by decide)

/-- C5 counterexample: in `"a%zz"` two characters remain after the `%`, yet
decoding fails — `std::stoi("zz", nullptr, 16)` throws
`std::invalid_argument`, which escapes exactly like the truncation throw. -/
theorem urlDecode_nonhex_counterexample :
    urlDecode "a%zz".data = none ∧ 2 ≤ "zz".data.length := by
  exact ⟨by decide, by decide⟩

/-- C5 amended: the decoder scans left-to-right turning `+` into a space and
`%` followed by two hexadecimal digits into the corresponding byte, copies
every character other than `%` and `+` unchanged, and fails when fewer than
two characters remain after a `%` — but it also fails when `stoi` cannot
parse the two following characters in base 16 at all, and on loosely
parseable pairs (signs, whitespace, one hex digit) it emits `stoi`'s value
cast to a byte; `a%20b+c` decodes to `"a b c"` and `a%2` fails. -/
theorem urlDecode_spec :
    (∀ (c : Char) (rest : List Char), c ≠ '%' → c ≠ '+' →
        urlDecode (c :: rest) = (urlDecode rest).map (fun d => c :: d)) ∧
    (∀ rest : List Char,
        urlDecode ('+' :: rest) = (urlDecode rest).map (fun d => ' ' :: d)) ∧
    (∀ rest : List Char, rest.length < 2 → urlDecode ('%' :: rest) = none) ∧
    (∀ c1 c2 : Char, isHexDigitC c1 = true → isHexDigitC c2 = true →
        stoi16two c1 c2 = some (16 * hexVal c1 + hexVal c2)) ∧
    (∀ (c1 c2 : Char) (rest : List Char) (v : Int), stoi16two c1 c2 = some v →
        urlDecode ('%' :: c1 :: c2 :: rest) =
          (urlDecode rest).map (fun d => Char.ofNat ((v % 256).toNat) :: d)) ∧
    (∀ (c1 c2 : Char) (rest : List Char), stoi16two c1 c2 = none →
        urlDecode ('%' :: c1 :: c2 :: rest) = none) ∧
    urlDecode "a%20b+c".data = some "a b c".data ∧
    urlDecode "a%2".data = none := by
  refine ⟨?_, ?_, ?_, ?_, ?_, ?_, by decide, by decide⟩
  · intro c rest hc hp
    have hc' : (c == '%') = false := by simpa using hc
    have hp' : (c == '+') = false := by simpa using hp
    rw [urlDecode.eq_def]
    simp [hc', hp']
  · intro rest
    rw [urlDecode.eq_def]
    simp
  · intro rest hlen
    match rest with
    | [] => rw [urlDecode.eq_def]; simp
    | [c1] => rw [urlDecode.eq_def]; simp
    | c1 :: c2 :: r => simp at hlen; omega
  · intro c1 c2 h1 h2
    obtain ⟨hs1, hp1, hm1⟩ := isHexDigitC_not_space_sign h1
    simp [stoi16two, hs1, hp1, hm1, h1, h2]
  · intro c1 c2 rest v hv
    rw [urlDecode.eq_def]
    simp [hv]
  · intro c1 c2 rest hv
    rw [urlDecode.eq_def]
    simp [hv]

/-- Witness for C5's universally quantified clauses at concrete inputs. -/
theorem urlDecode_spec_witness :
    urlDecode ('x' :: "y".data) = (urlDecode "y".data).map (fun d => 'x' :: d) ∧
    urlDecode ('%' :: "z".data) = none ∧
    stoi16two '2' '0' = some (16 * hexVal '2' + hexVal '0') ∧
    urlDecode ('%' :: 'z' :: 'z' :: "q".data) = none := by
  refine ⟨?_, ?_, ?_, ?_⟩
  · exact urlDecode_spec.1 'x' "y".data (by decide) (by decide)
  · exact urlDecode_spec.2.2.1 "z".data (by decide)
  · exact urlDecode_spec.2.2.2.1 '2' '0' (by decide) (by decide)
  · exact urlDecode_spec.2.2.2.2.2.1 'z' 'z' "q".data (by decide)

/-! ### C7 — scheme-character validation and lower-casing -/

/-- C7: writing the boundary computation's result as the scheme candidate, a
candidate containing any character that is not a letter, `+`, `-` or `.`
makes `parseURL` fail with `InvalidSchemeName`; otherwise the scheme is
stored lower-cased. -/
theorem schemeStep_validation :
    (∀ cand : List Char,
        isSchemeValid cand = false ↔
          ∃ c ∈ cand, isalphaC c = false ∧ c ≠ '+' ∧ c ≠ '-' ∧ c ≠ '.') ∧
    (∀ cs cand rest : List Char, schemeSplit cs = SplitRes.ok cand rest →
        isSchemeValid cand = false →
        parseURL cs = ParseOutcome.err (errRecord .InvalidSchemeName)) ∧
    (∀ cs cand rest : List Char, schemeSplit cs = SplitRes.ok cand rest →
        isSchemeValid cand = true →
        schemeStep cs = SchemeRes.ok (cand.map tolowerC) rest) := by
  refine ⟨?_, ?_, ?_⟩
  · intro cand
    rw [← Bool.not_eq_true, isSchemeValid, List.all_eq_true]
    simp only [not_forall, Bool.or_eq_true, beq_iff_eq, not_or,
      Bool.not_eq_true, exists_prop, ne_eq]
    tauto
  · intro cs cand rest hsplit hval
    unfold parseURL schemeStep
    rw [hsplit]
    simp [hval]
  · intro cs cand rest hsplit hval
    unfold schemeStep
    rw [hsplit]
    simp [hval]

/-- Witness for C7: `"1a"` (a digit in the scheme) fails with
`InvalidSchemeName`; `"HTtp"` is stored lower-cased. -/
theorem schemeStep_validation_witness :
    parseURL "1a://x".data = ParseOutcome.err (errRecord .InvalidSchemeName) ∧
    schemeStep "HTtp://x".data = SchemeRes.ok "http".data "//x".data := by
  constructor
  · exact schemeStep_validation.2.1 "1a://x".data "1a".data "//x".data
      (by decide) (by decide)
  · have h := schemeStep_validation.2.2 "HTtp://x".data "HTtp".data "//x".data
      (by decide) (by decide)
    rw [h]
    rfl

/-! ### C8 — bracketed (IPv6) host scanning -/

/-- The record produced for `http://[::1]:8080/p`. -/
def recIPv6 : ParseURL :=
  { scheme_ := "http".data, host_ := "[::1]".data, port_ := "8080".data,
    path_ := "p".data, errorCode_ := .Ok }

/-- C8: with a `[` opening the authority and the first `]` at index `k`, the
host is the bracket-inclusive prefix up to and including the `]` — a `:`
inside the brackets never stops the scan, so `]` is not mistaken for a port
delimiter — and a `:` immediately after the `]` still starts port parsing
(second conjunct and the end-to-end example `http://[::1]:8080/p`). -/
theorem hostScan_bracket :
    (∀ (cs : List Char) (k : Nat), cs.head? = some '[' →
        strchrIdx ']' cs = some k →
        hostScan cs = (cs.take (k + 1), cs.drop (k + 1))) ∧
    (∀ r : List Char,
        portStep (':' :: r) = (r.takeWhile notSlash, r.dropWhile notSlash)) ∧
    parseURL "http://[::1]:8080/p".data = ParseOutcome.ok recIPv6 := by
  refine ⟨?_, fun r => rfl, by decide⟩
  intro cs k hhead hk
  obtain ⟨ht, hd⟩ : cs.takeWhile notRBracket = cs.take k ∧
      cs.dropWhile notRBracket = cs.drop k := strchrIdx_take_drop hk
  obtain ⟨hklt, hget⟩ := strchrIdx_getElem hk
  have hdrop : cs.dropWhile notRBracket = ']' :: cs.drop (k + 1) := by
    rw [hd, List.drop_eq_getElem_cons hklt, hget]
  have htake : cs.take (k + 1) = cs.take k ++ [']'] := by
    rw [List.take_succ, List.getElem?_eq_getElem hklt, hget]
    rfl
  unfold hostScan
  rw [if_pos hhead, hdrop, ht, htake]
  rfl

/-- Witness for C8's universally quantified clauses at a concrete input. -/
theorem hostScan_bracket_witness :
    hostScan "[::1]:80".data = ("[::1]:80".data.take 5, "[::1]:80".data.drop 5) ∧
    portStep (':' :: "80/x".data) =
      ("80/x".data.takeWhile notSlash, "80/x".data.dropWhile notSlash) := by
  constructor
  · exact hostScan_bracket.1 "[::1]:80".data 4 (by decide) (by decide)
  · exact hostScan_bracket.2.1 "80/x".data

/-! ### C9 — getPort -/

/-- The record produced for `http://example.com:99999/`. -/
def rec99999 : ParseURL :=
  { scheme_ := "http".data, host_ := "example.com".data, port_ := "99999".data,
    errorCode_ := .Ok }

/-- The record produced for `http://h:4294967396/`. -/
def recWrap : ParseURL :=
  { scheme_ := "http".data, host_ := "h".data, port_ := "4294967396".data,
    errorCode_ := .Ok }

/-- C9 counterexample: the port string `"4294967396"` (reachable from
`http://h:4294967396/`) parses under base-10 integer parsing to
`4294967396 > 65535`, so the claim demands that `getPort` fail — but
`atoi` narrows through `int`, wrapping to `100`, and `getPort` succeeds
with `100`. -/
theorem getPort_wrap_counterexample :
    parseURL "http://h:4294967396/".data = ParseOutcome.ok recWrap ∧
      atoiMath recWrap.port_ = 4294967396 ∧
      (65535 : Int) < atoiMath recWrap.port_ ∧
      getPort recWrap = some 100 :=
  ⟨by decide, by decide, by decide, by decide⟩

/-- C9 amended: `getPort` succeeds with the port value exactly when the
record is valid and the `atoi` value of the raw port string — `(int)strtol`,
wrapping modulo `2^32` on the reference platform — lies in `(0, 65535]`;
when the mathematical base-10 parse is within `int` range, `atoi` coincides
with it (so the original claim holds on representable ports), while
overflowing digit strings can wrap back into range (see the
counterexample); for `http://example.com:99999/` `getPort` fails although
`isValid` holds. -/
theorem getPort_spec :
    (∀ (r : ParseURL) (p : Int),
        getPort r = some p ↔
          r.errorCode_ = .Ok ∧ 0 < atoi r.port_ ∧ atoi r.port_ ≤ 65535 ∧
            p = atoi r.port_) ∧
    (∀ l : List Char, -(2 ^ 31) ≤ atoiMath l → atoiMath l < 2 ^ 31 →
        atoi l = atoiMath l) ∧
    parseURL "http://example.com:99999/".data = ParseOutcome.ok rec99999 ∧
    getPort rec99999 = none ∧ isValid rec99999 = true := by
  refine ⟨?_, ?_, by decide, by decide, by decide⟩
  case refine_2 =>
    intro l hlo hhi
    unfold atoi clampLong wrap32
    rw [min_eq_left (by omega), max_eq_right (by omega),
      Int.emod_eq_of_lt (by omega) (by omega)]
    omega
  intro r p
  unfold getPort
  by_cases hok : r.errorCode_ = LUrlParserError.Ok
  · have hval : isValid r = true := by simp [isValid, hok]
    rw [hval]
    simp only [Bool.not_true, Bool.false_eq_true, if_false]
    by_cases hrange : atoi r.port_ ≤ 0 ∨ 65535 < atoi r.port_
    · rw [if_pos hrange]
      constructor
      · intro h; simp at h
      · intro ⟨_, h1, h2, _⟩; omega
    · rw [if_neg hrange]
      push_neg at hrange
      constructor
      · intro h
        refine ⟨hok, by omega, by omega, ?_⟩
        exact (Option.some_inj.mp h).symm
      · intro ⟨_, _, _, hp⟩
        rw [hp]
  · have hval : isValid r = false := by simp [isValid, hok]
    rw [hval]
    simp only [Bool.not_false, if_true]
    constructor
    · intro h; simp at h
    · intro ⟨h, _⟩; exact absurd h hok

/-- Witness for C9's quantified clauses at concrete inputs. -/
theorem getPort_spec_witness :
    (getPort rec99999 = some 99999 ↔
      rec99999.errorCode_ = .Ok ∧ 0 < atoi rec99999.port_ ∧
        atoi rec99999.port_ ≤ 65535 ∧ (99999 : Int) = atoi rec99999.port_) ∧
    atoi "80".data = atoiMath "80".data :=
  ⟨getPort_spec.1 rec99999 99999,
    getPort_spec.2.1 "80".data (by decide) (by decide)⟩

/-! ### Inversion lemmas on the pipeline stages -/

theorem mem_dropWhile_of_not {p : Char → Bool} {l : List Char} {a : Char}
    (ha : a ∈ l) (hp : p a = false) : a ∈ l.dropWhile p := by
  rw [← List.takeWhile_append_dropWhile p l] at ha
  rcases List.mem_append.mp ha with h | h
  · have := List.mem_takeWhile_imp h
    rw [hp] at this
    cases this
  · exact h

theorem dropWhile_cons_of_mem {p : Char → Bool} {l : List Char} {a : Char}
    (ha : a ∈ l) (hp : p a = false) :
    ∃ x xs, l.dropWhile p = x :: xs ∧ p x = false := by
  cases hdw : l.dropWhile p with
  | nil =>
    have hall := List.dropWhile_eq_nil_iff.mp hdw a ha
    rw [hp] at hall
    cases hall
  | cons x xs =>
    exact ⟨x, xs, rfl, dropWhile_head_false hdw⟩

theorem bHasUserName_mem {cs : List Char} (h : bHasUserName cs = true) :
    '@' ∈ cs := by
  induction cs with
  | nil => simp [bHasUserName] at h
  | cons c cs ih =>
    rw [bHasUserName] at h
    split at h
    · rename_i hc
      subst hc
      exact List.mem_cons_self _ _
    · split at h
      · cases h
      · exact List.mem_cons_of_mem _ (ih h)

/-- The `NoAtSign` branch of the credentials step is unreachable: when the
lookahead saw an `@`, both scans necessarily stop on a `:` or on that `@`,
and the final cursor always sits on an `@`. -/
theorem credentialsStep_ne_error (cs : List Char) (e : LUrlParserError) :
    credentialsStep cs ≠ Except.error e := by
  intro h
  unfold credentialsStep at h
  split at h
  · rename_i hb
    have hat : '@' ∈ cs := bHasUserName_mem hb
    obtain ⟨x, xs, hdw, hx⟩ :=
      dropWhile_cons_of_mem (p := notColonAt) hat (by decide)
    have hxor : x = ':' ∨ x = '@' := by
      unfold notColonAt at hx
      simp only [Bool.and_eq_false_iff, Bool.not_eq_false', beq_iff_eq] at hx
      tauto
    have hmem : '@' ∈ x :: xs := by
      rw [← hdw]
      exact mem_dropWhile_of_not (p := notColonAt) hat (by decide)
    split at h
    · -- cs.dropWhile notColonAt = ':' :: r2 : the password scan stops at '@'
      rename_i r2 heq
      rw [hdw] at heq
      cases heq
      have hmem2 : '@' ∈ xs := by
        rcases List.mem_cons.mp hmem with h' | h'
        · exact absurd h' (by decide)
        · exact h'
      obtain ⟨y, ys, hdw2, hy⟩ :=
        dropWhile_cons_of_mem (p := notAt) hmem2 (by decide)
      have hy' : y = '@' := by
        unfold notAt at hy
        simpa using hy
      subst hy'
      split at h
      · cases h
      · rename_i hne
        exact hne ys (by rw [hdw2])
    · cases h
    · -- catch-all of the outer match: the head must still be ':' or '@'
      rename_i hne1 hne2
      rcases hxor with rfl | rfl
      · exact hne1 xs hdw
      · exact hne2 xs hdw
  · cases h

theorem schemeStep_err_inv {cs : List Char} {e : LUrlParserError}
    (h : schemeStep cs = SchemeRes.err e) : e = .InvalidSchemeName := by
  unfold schemeStep at h
  split at h
  · cases h
  · split at h
    · cases h
    · simp only [SchemeRes.err.injEq] at h
      exact h.symm

theorem queryStep_inv {cs q : List Char} {m : List (List Char × List Char)}
    {r8 : List Char} (h : queryStep cs = some (q, m, r8)) :
    processQuery q = some m := by
  unfold queryStep at h
  split at h
  · rename_i r
    split at h
    · rename_i m' heq
      simp only [Option.some_inj, Prod.mk.injEq] at h
      obtain ⟨hq, hm, -⟩ := h
      rw [← hq, ← hm]
      exact heq
    · cases h
  · simp only [Option.some_inj, Prod.mk.injEq] at h
    obtain ⟨hq, hm, -⟩ := h
    rw [← hq, ← hm]
    rfl

theorem parseURL_ok_inv {cs : List Char} {r : ParseURL}
    (h : parseURL cs = ParseOutcome.ok r) :
    r.errorCode_ = .Ok ∧ (∃ rest, schemeStep cs = SchemeRes.ok r.scheme_ rest) ∧
      processQuery r.query_ = some r.url_parameters_ := by
  unfold parseURL at h
  split at h
  · cases h
  · cases h
  · rename_i sch rest heq1
    split at h
    · cases h
    · rename_i r2 heq2
      split at h
      · cases h
      · rename_i u pw r3 heq3
        split at h
        rename_i hst r4 heq4
        split at h
        rename_i pt r5 heq5
        split at h
        · -- r5 = [] : success with empty path/query/fragment
          simp only [ParseOutcome.ok.injEq] at h
          subst h
          exact ⟨rfl, ⟨rest, heq1⟩, rfl⟩
        · -- r5 = '/' :: r6
          rename_i r6
          split at h
          · cases h
          · rename_i q m r8 heq6
            simp only [ParseOutcome.ok.injEq] at h
            subst h
            exact ⟨rfl, ⟨rest, heq1⟩, queryStep_inv heq6⟩
        · cases h

theorem parseURL_err_inv {cs : List Char} {r : ParseURL}
    (h : parseURL cs = ParseOutcome.err r) :
    ∃ e, r = errRecord e ∧
      (e = LUrlParserError.InvalidSchemeName ∨ e = LUrlParserError.NoDoubleSlash ∨
        e = LUrlParserError.NoSlash) := by
  unfold parseURL at h
  split at h
  · cases h
  · rename_i e heq
    simp only [ParseOutcome.err.injEq] at h
    subst h
    exact ⟨e, rfl, Or.inl (schemeStep_err_inv heq)⟩
  · rename_i sch rest heq1
    split at h
    · simp only [ParseOutcome.err.injEq] at h
      subst h
      exact ⟨_, rfl, Or.inr (Or.inl rfl)⟩
    · rename_i r2 heq2
      split at h
      · rename_i e heq3
        exact absurd heq3 (credentialsStep_ne_error r2 e)
      · rename_i u pw r3 heq3
        split at h
        rename_i hst r4 heq4
        split at h
        rename_i pt r5 heq5
        split at h
        · cases h
        · rename_i r6
          split at h
          · cases h
          · cases h
        · simp only [ParseOutcome.err.injEq] at h
          subst h
          exact ⟨_, rfl, Or.inr (Or.inr rfl)⟩

/-! ### C1 — no partial result on error, no Ok on failure -/

/-- C1: whenever `parseURL` returns a record, a non-`Ok` error code implies
every structural field is empty (the error constructor builds a fresh empty
record), and an error return never carries the `Ok` code. -/
theorem parseURL_error_record_empty (cs : List Char) (r : ParseURL)
    (h : parseURL cs = ParseOutcome.ok r ∨ parseURL cs = ParseOutcome.err r) :
    (r.errorCode_ ≠ .Ok →
      r.scheme_ = [] ∧ r.userName_ = [] ∧ r.password_ = [] ∧ r.host_ = [] ∧
        r.port_ = [] ∧ r.path_ = [] ∧ r.query_ = [] ∧ r.url_parameters_ = [] ∧
        r.fragment_ = []) ∧
    (parseURL cs = ParseOutcome.err r → r.errorCode_ ≠ .Ok) := by
  rcases h with h | h
  · have hok := (parseURL_ok_inv h).1
    refine ⟨fun hne => absurd hok hne, fun he => ?_⟩
    rw [h] at he
    cases he
  · obtain ⟨e, rfl, he⟩ := parseURL_err_inv h
    have hne : (errRecord e).errorCode_ ≠ LUrlParserError.Ok := by
      rcases he with rfl | rfl | rfl <;> decide
    exact ⟨fun _ => ⟨rfl, rfl, rfl, rfl, rfl, rfl, rfl, rfl, rfl⟩, fun _ => hne⟩

/-- Witness for C1 at the failing input `"1a://x"`. -/
theorem parseURL_error_record_empty_witness :
    ((errRecord .InvalidSchemeName).errorCode_ ≠ .Ok →
      (errRecord .InvalidSchemeName).scheme_ = [] ∧
        (errRecord .InvalidSchemeName).userName_ = [] ∧
        (errRecord .InvalidSchemeName).password_ = [] ∧
        (errRecord .InvalidSchemeName).host_ = [] ∧
        (errRecord .InvalidSchemeName).port_ = [] ∧
        (errRecord .InvalidSchemeName).path_ = [] ∧
        (errRecord .InvalidSchemeName).query_ = [] ∧
        (errRecord .InvalidSchemeName).url_parameters_ = [] ∧
        (errRecord .InvalidSchemeName).fragment_ = []) ∧
    (parseURL "1a://x".data = ParseOutcome.err (errRecord .InvalidSchemeName) →
      (errRecord .InvalidSchemeName).errorCode_ ≠ .Ok) :=
  parseURL_error_record_empty "1a://x".data (errRecord .InvalidSchemeName)
    (Or.inr (by decide))

/-! ### C4 — the scheme can be empty on success -/

/-- The record produced for `"://example.com"`. -/
def recEmptyScheme : ParseURL := { host_ := "example.com".data, errorCode_ := .Ok }

/-- C4 counterexample: `"://example.com"` (first `:` at index 0) parses
successfully — `isSchemeValid` accepts the empty candidate vacuously — and
the resulting scheme is the empty string. -/
theorem scheme_empty_counterexample :
    parseURL "://example.com".data = ParseOutcome.ok recEmptyScheme ∧
      recEmptyScheme.scheme_ = [] := ⟨by decide, rfl⟩

/-- C4 amended: on success the scheme is non-empty provided the first `:`
of the input sits at a positive index (there is at least one character
before the boundary); with the boundary at index 0 — `"://host"` — the
scheme is empty (see the counterexample). -/
theorem scheme_nonempty_of_colon_positive (cs : List Char) (r : ParseURL)
    (i : Nat) (hc : strchrIdx ':' cs = some i) (hpos : 0 < i)
    (h : parseURL cs = ParseOutcome.ok r) : r.scheme_ ≠ [] := by
  obtain ⟨-, ⟨rest, hstep⟩, -⟩ := parseURL_ok_inv h
  have hss : schemeSplit cs = SplitRes.ok (cs.take i) (cs.drop (i + 1)) := by
    unfold schemeSplit
    rw [hc]
  unfold schemeStep at hstep
  rw [hss] at hstep
  replace hstep :
      (if isSchemeValid (cs.take i) then
          SchemeRes.ok ((cs.take i).map tolowerC) (cs.drop (i + 1))
        else SchemeRes.err .InvalidSchemeName) =
        SchemeRes.ok r.scheme_ rest := hstep
  split at hstep
  · simp only [SchemeRes.ok.injEq] at hstep
    obtain ⟨hs, -⟩ := hstep
    intro hnil
    rw [← hs] at hnil
    have hlen : i < cs.length := strchrIdx_lt hc
    have hcon := congrArg List.length hnil
    rw [List.length_map, List.length_take,
      Nat.min_eq_left (Nat.le_of_lt hlen), List.length_nil] at hcon
    omega
  · cases hstep

/-- Witness for C4 at `"a://b"` (first `:` at index 1). -/
def recAB : ParseURL := { scheme_ := "a".data, host_ := "b".data, errorCode_ := .Ok }

/-- Witness for the amended C4. -/
theorem scheme_nonempty_of_colon_positive_witness : recAB.scheme_ ≠ [] :=
  scheme_nonempty_of_colon_positive "a://b".data recAB 1 (by decide) (by decide)
    (by decide)

/-! ### C10 — NoAtSign is unreachable -/

/-- C10: `parseURL` never returns the `NoAtSign` error: credentials are only
parsed after the lookahead saw an `@` before any `/`, and then the user-name
and password scans always leave the cursor on an `@`. -/
theorem parseURL_no_NoAtSign (cs : List Char) (r : ParseURL)
    (h : parseURL cs = ParseOutcome.ok r ∨ parseURL cs = ParseOutcome.err r) :
    r.errorCode_ ≠ LUrlParserError.NoAtSign := by
  rcases h with h | h
  · rw [(parseURL_ok_inv h).1]
    decide
  · obtain ⟨e, rfl, he⟩ := parseURL_err_inv h
    rcases he with rfl | rfl | rfl <;> decide

/-- Witness for C10 at the erroring input `"http:/x"`. -/
theorem parseURL_no_NoAtSign_witness :
    (errRecord .NoDoubleSlash).errorCode_ ≠ LUrlParserError.NoAtSign :=
  parseURL_no_NoAtSign "http:/x".data (errRecord .NoDoubleSlash)
    (Or.inr (by decide))

/-! ### C3 — pairs without `=`, last duplicate wins -/

theorem lookupParam_insertParam_self (m : List (List Char × List Char))
    (k v : List Char) : lookupParam (insertParam m k v) k = some v := by
  induction m with
  | nil => simp [insertParam, lookupParam]
  | cons p m ih =>
    by_cases hp : p.1 = k
    · simp only [insertParam, if_pos hp, lookupParam, if_pos]
    · simp only [insertParam, if_neg hp, lookupParam, if_neg hp]
      exact ih

theorem lookupParam_insertParam_ne (m : List (List Char × List Char))
    (k k' v : List Char) (hne : k' ≠ k) :
    lookupParam (insertParam m k' v) k = lookupParam m k := by
  induction m with
  | nil => simp [insertParam, lookupParam, hne]
  | cons p m ih =>
    by_cases hp : p.1 = k'
    · have hpk : ¬ p.1 = k := by rw [hp]; exact hne
      simp only [insertParam, if_pos hp, lookupParam, if_neg hne, if_neg hpk]
    · simp only [insertParam, if_neg hp, lookupParam]
      by_cases hpk : p.1 = k
      · rw [if_pos hpk, if_pos hpk]
      · rw [if_neg hpk, if_neg hpk]
        exact ih

theorem dropWhile_notEqSign_nil {p : List Char} (hnoeq : '=' ∉ p) :
    p.dropWhile notEqSign = [] := by
  rw [List.dropWhile_eq_nil_iff]
  intro x hx
  unfold notEqSign
  simp only [Bool.not_eq_true', beq_eq_false_iff_ne, ne_eq]
  intro hxx
  subst hxx
  exact hnoeq hx

theorem foldlM_stepPair_preserve (l : List (List Char)) (k : List Char) :
    ∀ st st' : List Char × List (List Char × List Char),
      (∀ q ∈ l, keyOf q ≠ k) → l.foldlM stepPair st = some st' →
      lookupParam st'.2 k = lookupParam st.2 k := by
  induction l with
  | nil =>
    intro st st' _ h
    replace h : some st = some st' := h
    cases h
    rfl
  | cons q l ih =>
    intro st st' hkeys h
    rw [List.foldlM_cons] at h
    cases hq : stepPair st q with
    | none => rw [hq] at h; exact absurd h (by simp)
    | some st1 =>
      rw [hq] at h
      replace h : l.foldlM stepPair st1 = some st' := h
      have h1 : lookupParam st'.2 k = lookupParam st1.2 k :=
        ih st1 st' (fun q' hq' => hkeys q' (List.mem_cons_of_mem _ hq')) h
      unfold stepPair at hq
      cases hv : urlDecode (valueOf st.1 q) with
      | none => rw [hv] at hq; cases hq
      | some v =>
        rw [hv] at hq
        simp only [Option.some_inj] at hq
        subst hq
        rw [h1]
        exact lookupParam_insertParam_ne st.2 k (keyOf q) v
          (hkeys q (List.mem_cons_self _ _))

/-- As long as no pair contains an `=`, the loop-carried `value` variable
keeps its initial empty content. -/
theorem foldlM_stepPair_value_nil (l : List (List Char)) :
    ∀ m : List (List Char × List Char), (∀ q ∈ l, '=' ∉ q) →
      ∃ m', l.foldlM stepPair ([], m) = some ([], m') := by
  induction l with
  | nil =>
    intro m _
    exact ⟨m, rfl⟩
  | cons q l ih =>
    intro m hne
    have hq : stepPair ([], m) q = some ([], insertParam m (keyOf q) []) := by
      unfold stepPair
      have hvq : valueOf ([] : List Char) q = [] := by
        unfold valueOf
        rw [dropWhile_notEqSign_nil (hne q (List.mem_cons_self _ _))]
      rw [hvq]
      rfl
    rw [List.foldlM_cons, hq]
    obtain ⟨m', hm'⟩ :=
      ih (insertParam m (keyOf q) [])
        (fun q' hq' => hne q' (List.mem_cons_of_mem _ hq'))
    exact ⟨m', hm'⟩

/-- Projection of the parameter map out of an outcome. -/
def paramsOf : ParseOutcome → List (List Char × List Char)
  | .ok r => r.url_parameters_
  | .err r => r.url_parameters_
  | .crash => []

/-- Did the parse succeed? -/
def isOkOutcome : ParseOutcome → Bool
  | .ok _ => true
  | _ => false

/-- C3 counterexample: two successful parses whose query contains a pair
with no `=` but whose stored value for that pair's key is not empty.  In
`"x://h/?a&a=5"` the later duplicate `"a=5"` overwrites the binding of the
bare pair `"a"`, so key `"a"` holds `"5"`.  In `"x://h/?c=1&b"` the failed
`getline` for the bare pair `"b"` leaves the loop's `value` variable
holding the previous pair's raw value, so key `"b"` holds `"1"`. -/
theorem lastPairWins_counterexample :
    (isOkOutcome (parseURL "x://h/?a&a=5".data) = true ∧
      splitAmp "a&a=5".data = ["a".data, "a=5".data] ∧
      ('=' ∉ "a".data) ∧
      lookupParam (paramsOf (parseURL "x://h/?a&a=5".data)) "a".data =
        some "5".data) ∧
    (isOkOutcome (parseURL "x://h/?c=1&b".data) = true ∧
      ('=' ∉ "b".data) ∧
      lookupParam (paramsOf (parseURL "x://h/?c=1&b".data)) "b".data =
        some "1".data) :=
  ⟨⟨by decide, by decide, by decide, by decide⟩,
    ⟨by decide, by decide, by decide⟩⟩

/-- C3 amended: a pair with no `=` stores, for its key, the stale content
of the loop's `value` variable (the raw text after `=` of the closest
earlier `=`-pair, decoded) — the empty string only when no earlier pair of
the query contains an `=`; and the binding survives only when no later
pair repeats the key.  Under those two conditions the stored value is the
empty string. -/
theorem lastPair_noEq_value_empty (cs : List Char) (r : ParseURL)
    (l1 l2 : List (List Char)) (p : List Char)
    (hok : parseURL cs = ParseOutcome.ok r)
    (hsplit : splitAmp r.query_ = l1 ++ p :: l2)
    (hnoeq : '=' ∉ p)
    (hbefore : ∀ q ∈ l1, '=' ∉ q)
    (hlast : ∀ q ∈ l2, keyOf q ≠ keyOf p) :
    lookupParam r.url_parameters_ (keyOf p) = some [] := by
  obtain ⟨-, -, hproc⟩ := parseURL_ok_inv hok
  unfold processQuery at hproc
  rw [hsplit, List.foldlM_append] at hproc
  obtain ⟨m1, h1⟩ := foldlM_stepPair_value_nil l1 [] hbefore
  rw [h1] at hproc
  replace hproc :
      ((p :: l2).foldlM stepPair ([], m1)).map (·.2) =
        some r.url_parameters_ := hproc
  rw [List.foldlM_cons] at hproc
  have hvp : valueOf ([] : List Char) p = [] := by
    unfold valueOf
    rw [dropWhile_notEqSign_nil hnoeq]
  have hsp : stepPair ([], m1) p = some ([], insertParam m1 (keyOf p) []) := by
    unfold stepPair
    rw [hvp]
    rfl
  rw [hsp] at hproc
  replace hproc :
      (l2.foldlM stepPair ([], insertParam m1 (keyOf p) [])).map (·.2) =
        some r.url_parameters_ := hproc
  cases h2 : l2.foldlM stepPair ([], insertParam m1 (keyOf p) []) with
  | none => rw [h2] at hproc; exact absurd hproc (by simp)
  | some st2 =>
    rw [h2] at hproc
    simp only [Option.map_some', Option.some_inj] at hproc
    rw [← hproc, foldlM_stepPair_preserve l2 (keyOf p) _ _ hlast h2]
    exact lookupParam_insertParam_self m1 (keyOf p) []

/-- The record produced for `"x://h/?b&c=1"`. -/
def recFirstB : ParseURL :=
  { scheme_ := "x".data, host_ := "h".data, query_ := "b&c=1".data,
    url_parameters_ := [("b".data, ([] : List Char)), ("c".data, "1".data)],
    errorCode_ := .Ok }

/-- Witness for the amended C3: in `"x://h/?b&c=1"` the first pair `"b"`
has no `=`, no earlier pair at all, and no later duplicate; its stored
value is empty. -/
theorem lastPair_noEq_value_empty_witness :
    lookupParam recFirstB.url_parameters_ (keyOf "b".data) = some [] :=
  lastPair_noEq_value_empty "x://h/?b&c=1".data recFirstB [] ["c=1".data]
    "b".data (by decide) (by decide) (by decide)
    (by intro q hq; cases hq) (by decide)

end LUrlParser
